import Mathlib

/-!
Verification development for the rtkv repository: a Redis-backed key/value
store (tkv.go) with a score-ordered last-modified index, a Lua
range-and-fetch script, and a generic pagination combinator (Paginate).

The Redis backend state visible to one RedisTKV instance is modelled as
- a primary key/value map (association list, String keys and payloads), and
- the single sorted set at the last-modified index key, modelled as an
  association list from member to integer score (nanosecond timestamps;
  the float64 conversion applied by the Go client is abstracted as exact).

Redis commands used by the code (SET, GET, DEL, ZADD, ZREM, ZCOUNT,
ZRANGEBYSCORE with LIMIT, MGET) are given executable models below, and each
Go function of the repository is translated on top of them.
-/

/-- Association-list lookup with String keys: the first binding wins,
modelling a key/value map. -/
def assocLookup {α : Type} : List (String × α) → String → Option α
  | [], _ => none
  | p :: rest, k => if p.1 = k then some p.2 else assocLookup rest k

/-- Map update used for the Redis SET command: overwrite the binding in
place when the key is present, append it otherwise. -/
def assocSet {α : Type} (l : List (String × α)) (k : String) (v : α) :
    List (String × α) :=
  match assocLookup l k with
  | some _ => l.map (fun p => if p.1 = k then (k, v) else p)
  | none => l ++ [(k, v)]

/-- Redis DEL: remove the binding of a key from the primary map. -/
def assocRemove {α : Type} (l : List (String × α)) (k : String) :
    List (String × α) :=
  l.filter (fun p => !(p.1 == k))

/-- Redis ZADD on the sorted set (one member, one score): update the score
in place when the member exists and report 0 new elements, append the
member otherwise and report 1 new element. The reported count is what
go-redis exposes as IntCmd.Val(). -/
def zadd (idx : List (String × Int)) (member : String) (score : Int) :
    List (String × Int) × Int :=
  match assocLookup idx member with
  | some _ => (idx.map (fun p => if p.1 = member then (member, score) else p), 0)
  | none => (idx ++ [(member, score)], 1)

/-- Redis ZREM with a list of members: every entry whose member occurs in
the list is removed from the sorted set. -/
def zrem (idx : List (String × Int)) (members : List String) :
    List (String × Int) :=
  idx.filter (fun p => !(members.contains p.1))

/-- Score bound of a range query: a concrete value or one of the
"-inf" / "+inf" markers the Go code passes as strings. -/
inductive Bound where
  | negInf
  | posInf
  | fin (v : Int)
deriving DecidableEq, Repr

/-- Test of the lower bound against a score. -/
def Bound.leScore : Bound → Int → Bool
  | .negInf, _ => true
  | .posInf, _ => false
  | .fin v, x => decide (v ≤ x)

/-- Test of the upper bound against a score. -/
def Bound.geScore : Bound → Int → Bool
  | .posInf, _ => true
  | .negInf, _ => false
  | .fin v, x => decide (x ≤ v)

/-- Score range membership for ZCOUNT and ZRANGEBYSCORE. -/
def inRange (lo hi : Bound) (x : Int) : Bool :=
  lo.leScore x && hi.geScore x

/-- Redis ZCOUNT: number of sorted-set entries whose score lies in the
bound range, as the int64 the client returns. -/
def zcount (idx : List (String × Int)) (lo hi : Bound) : Int :=
  ((idx.filter (fun p => inRange lo hi p.2)).length : Int)

/-- Sorted-set comparison: ascending score, ties broken by the member
string, as Redis orders sorted sets. -/
def entryLe (a b : String × Int) : Bool :=
  decide (a.2 < b.2) || (decide (a.2 = b.2) && !(decide (b.1 < a.1)))

/-- Insertion step of the sorted-order view of the set. -/
def insortEntry (e : String × Int) : List (String × Int) → List (String × Int)
  | [] => [e]
  | x :: xs => if entryLe e x then e :: x :: xs else x :: insortEntry e xs

/-- Sorted-order view of the sorted set (our association list stores
entries in insertion order; Redis keeps them ordered by score). -/
def sortEntries : List (String × Int) → List (String × Int)
  | [] => []
  | x :: xs => insortEntry x (sortEntries xs)

/-- Redis ZRANGEBYSCORE key lo hi LIMIT offset count: members in score
order within the range, skipping offset entries, returning at most count
entries (a negative count means all remaining, as in Redis). -/
def zrangebyscore (idx : List (String × Int)) (lo hi : Bound)
    (offset count : Int) : List String :=
  let sorted := (sortEntries idx).filter (fun p => inRange lo hi p.2)
  let page :=
    if count < 0 then sorted.drop offset.toNat
    else (sorted.drop offset.toNat).take count.toNat
  page.map Prod.fst

/-- Redis MGET: one Option per requested key, none for absent keys. -/
def mget (primary : List (String × String)) (keys : List String) :
    List (Option String) :=
  keys.map (assocLookup primary)

/-- DelimPipe from tkv.go: the printable key delimiter preset. -/
def DelimPipe : String := "|"

/-- DelimUnit from tkv.go: the ASCII unit separator delimiter preset. -/
def DelimUnit : String := "\x1f"

/-- Suffix of the last-modified sorted-set key (tkv.go lastModifiedIdxSuffix). -/
def lastModifiedIdxSuffix : String := "lmIdx"

/-- RedisTKV configuration: the namespace and id delimiter (the Go struct
field named namespace is called ns here because namespace is a Lean
keyword). The client handle and cached script SHA are connection state
with no data semantics and are not modelled. -/
structure RedisTKV where
  ns : String
  idDelimiter : String
deriving DecidableEq, Repr

/-- Backend state visible to one RedisTKV instance: the primary key/value
map and the sorted set stored at namespacedKey lastModifiedIdxSuffix. -/
structure TKVState where
  primary : List (String × String)
  index : List (String × Int)
deriving DecidableEq, Repr

/-- tkv.go namespacedKey: namespace, then the delimiter, then the id
segments joined by the delimiter. -/
def RedisTKV.namespacedKey (r : RedisTKV) (key : List String) : String :=
  r.ns ++ r.idDelimiter ++ String.intercalate r.idDelimiter key

/-- BulkSetRecord from tkv.go, with LastModified already taken to
UnixNano (an integer score). -/
structure BulkSetRecord where
  lastModified : Int
  id : List String
  data : String
deriving DecidableEq, Repr

/-- tkv.go Set: one transactional unit doing SET on the composed key and
ZADD of that key into the last-modified index; the returned Bool is
existed, computed as ZADD reporting 0 newly added members. -/
def RedisTKV.Set (r : RedisTKV) (s : TKVState) (data : String)
    (lastModified : Int) (id : List String) : TKVState × Bool :=
  let key := r.namespacedKey id
  let z := zadd s.index key lastModified
  ({ primary := assocSet s.primary key data, index := z.1 }, z.2 == 0)

/-- tkv.go BulkSet: for each record in order, SET the composed key and
ZADD it with the record timestamp, all in one transactional unit; the
empty batch is a no-op. -/
def RedisTKV.BulkSet (r : RedisTKV) (s : TKVState)
    (records : List BulkSetRecord) : TKVState :=
  records.foldl
    (fun st rec =>
      let key := r.namespacedKey rec.id
      { primary := assocSet st.primary key rec.data
        index := (zadd st.index key rec.lastModified).1 })
    s

/-- tkv.go Get: GET of the composed key, absent keys give none. -/
def RedisTKV.Get (r : RedisTKV) (s : TKVState) (id : List String) :
    Option String :=
  assocLookup s.primary (r.namespacedKey id)

/-- tkv.go Exists: EXISTS of the composed key. -/
def RedisTKV.Exists (r : RedisTKV) (s : TKVState) (id : List String) : Bool :=
  (assocLookup s.primary (r.namespacedKey id)).isSome

/-- tkv.go Delete: one transactional unit doing DEL of the composed key
and ZREM on the index. Faithful to line 190 of the source: the ZREM call
receives the raw id slice (which go-redis flattens into the individual
segments as members), not the composed namespaced key that was used as
the ZADD member. -/
def RedisTKV.Delete (r : RedisTKV) (s : TKVState) (id : List String) :
    TKVState :=
  { primary := assocRemove s.primary (r.namespacedKey id)
    index := zrem s.index id }

/-- Conversion of the optional from time to the minimum score bound, as
FetchPage and FetchPageConsistent build rangeMin ("-inf" when absent). -/
def rangeMinOf : Option Int → Bound
  | some t => .fin t
  | none => .negInf

/-- Conversion of the optional to time to the maximum score bound
("+inf" when absent). -/
def rangeMaxOf : Option Int → Bound
  | some t => .fin t
  | none => .posInf

/-- tkv.go rangeScript (the Lua body run by FetchPageConsistent): ZCOUNT
the range; on zero return (0, empty); ZRANGE BYSCORE with LIMIT offset
count; on empty selection return (0, empty); otherwise return the total
with the MGET of the selected members. -/
def rangeScriptEval (idx : List (String × Int))
    (primary : List (String × String)) (lo hi : Bound)
    (offset count : Int) : Int × List (Option String) :=
  let total := zcount idx lo hi
  if total = 0 then (0, [])
  else
    let keys := zrangebyscore idx lo hi offset count
    if keys = [] then (0, [])
    else (total, mget primary keys)

/-- tkv.go FetchPage (non-atomic path): ZCOUNT for the total, then
ZRANGEBYSCORE for the page of member keys; on an empty selection the
empty sequence is returned with that total and MGET is skipped (the Bool
records whether the MGET round trip happened); otherwise the MGET rows
form the sequence. The iteration of the rows is modelled separately by
yieldValues. -/
def FetchPage (s : TKVState) (fromT toT : Option Int)
    (offset limit : Int) : List (Option String) × Int × Bool :=
  let lo := rangeMinOf fromT
  let hi := rangeMaxOf toT
  let total := zcount s.index lo hi
  let sel := zrangebyscore s.index lo hi offset limit
  if sel = [] then ([], total, false)
  else (mget s.primary sel, total, true)

/-- Iteration of the sequences returned by FetchPage and
FetchPageConsistent (tkv.go lines 245-251 and 294-300): each row passes
through the type assertion rawValue.(string), so values are yielded until
the first nil row, at which point the assertion panics. The result is the
yielded prefix and whether a panic occurred. -/
def yieldValues : List (Option String) → List String × Bool
  | [] => ([], false)
  | some v :: rest =>
      let r := yieldValues rest
      (v :: r.1, r.2)
  | none :: _ => ([], true)

/-!
Model of the Paginate combinator (paginate.go). A page function takes an
offset and a limit and either fails or returns the page sequence together
with the reported total. Both fetch paths of the repository yield their
items with nil errors, so a page sequence is a plain item list here.

The lazy pull-based iteration is made explicit by a consumer budget: the
budget is the number of items the consumer accepts before it breaks out of
the range loop (none means the consumer never stops). A yield therefore
returns false exactly on the item at which the budget runs out, as a Go
range loop that breaks during that iteration makes it do. The outer
for-loop of the composite sequence takes explicit fuel, and running out of
fuel is reported as none, so non-termination of the source loop is
observable as none at every fuel.
-/

/-- Item or error element yielded by the composite Paginate sequence. -/
inductive PElem where
  | item (b : String)
  | fail (e : String)
deriving DecidableEq, Repr

/-- Page function shape (paginate.go PageFunc), with the context and time
bounds dropped: they are passed through unchanged to every call. -/
def PageFn : Type := Int → Int → Except String (List String × Int)

/-- Draining one page sequence against a consumer budget: returns the
items the consumer accepted, the remaining budget, and whether the
consumer stopped pulling (its yield returned false) during this page. -/
def drainPage : List String → Option Nat → List String × Option Nat × Bool
  | [], b => ([], b, false)
  | _ :: _, some 0 => ([], some 0, true)
  | x :: _, some 1 => ([x], some 0, true)
  | x :: xs, some (b + 2) =>
      let r := drainPage xs (some (b + 1))
      (x :: r.1, r.2.1, r.2.2)
  | x :: xs, none =>
      let r := drainPage xs none
      (x :: r.1, r.2.1, r.2.2)

/-- The for-loop of the composite sequence returned by Paginate
(paginate.go lines 54-73): drain the current page; stop if the consumer
stopped; advance offset by limit and stop once offset reaches the
reported total; otherwise fetch the next page, yielding a single error
element and stopping on failure, else continue with the fetched page and
its reported total. The Nat in the result counts the page-fetch calls
performed by the loop itself; none means the fuel ran out. -/
def paginateLoop (pageFn : PageFn) (limit : Int) :
    Nat → List String → Int → Int → Option Nat → Option (List PElem × Nat)
  | 0, _, _, _, _ => none
  | fuel + 1, it, offset, total, budget =>
      let d := drainPage it budget
      let ys : List PElem := d.1.map PElem.item
      if d.2.2 then some (ys, 0)
      else
        let offset2 := offset + limit
        if total ≤ offset2 then some (ys, 0)
        else
          match pageFn offset2 limit with
          | .error e =>
              some (ys ++ [PElem.fail ("fetching next page failed: " ++ e)], 1)
          | .ok (it2, total2) =>
              match paginateLoop pageFn limit fuel it2 offset2 total2 d.2.1 with
              | none => none
              | some pr => some (ys ++ pr.1, pr.2 + 1)

/-- paginate.go Paginate: call the page function once; a failure is
returned as an error wrapped with the first-page context. When the
reported total is at most the limit, the first page sequence itself is
returned (here: drained against the budget) after that single call.
Otherwise the composite loop runs. The Nat counts all page-fetch calls,
the initial one included; some none means the loop fuel ran out. -/
def Paginate (pageFn : PageFn) (offset limit : Int) (budget : Option Nat)
    (fuel : Nat) : Except String (Option (List PElem × Nat)) :=
  match pageFn offset limit with
  | .error e => .error ("fetching first page failed: " ++ e)
  | .ok (it, total) =>
      if total ≤ limit then
        .ok (some ((drainPage it budget).1.map PElem.item, 1))
      else
        match paginateLoop pageFn limit fuel it offset total budget with
        | none => .ok none
        | some pr => .ok (some (pr.1, pr.2 + 1))

/-- The items of one page of the mock page source used by the Paginate
tests (paginate_test.go mockPageFunc over a fixed item list): empty once
the offset passes the list, otherwise the slice from offset of at most
limit items. -/
def mockPageItems (pages : List String) (offset limit : Int) : List String :=
  if (pages.length : Int) ≤ offset then []
  else (pages.drop offset.toNat).take limit.toNat

/-- The mock page source itself: always succeeds and always reports the
full list length as the total. -/
def mockPageFn (pages : List String) : PageFn :=
  fun offset limit => .ok (mockPageItems pages offset limit, (pages.length : Int))

/-- Number of sorted-set entries carrying a given member. -/
def countMember (idx : List (String × Int)) (m : String) : Nat :=
  (idx.filter (fun p => decide (p.1 = m))).length

/-- Well-formedness of the sorted-set model: members are pairwise
distinct, as Redis guarantees for sorted-set members. -/
def uniqueMembers (idx : List (String × Int)) : Prop :=
  (idx.map Prod.fst).Nodup

/-- Timestamp of the last record of a batch whose composed key is the
given key, none when the batch never writes it: the score the index holds
for that key after the batch, since later ZADDs overwrite earlier ones. -/
def lastWriteTs (r : RedisTKV) (records : List BulkSetRecord)
    (key : String) : Option Int :=
  match records with
  | [] => none
  | rec :: rest =>
      match lastWriteTs r rest key with
      | some t => some t
      | none => if r.namespacedKey rec.id = key then some rec.lastModified else none


theorem countMember_cons (p : String × Int) (rest : List (String × Int))
    (m : String) :
    countMember (p :: rest) m = (if p.1 = m then 1 else 0) + countMember rest m := by
  by_cases h : p.1 = m <;> simp [countMember, List.filter, h]
  omega

theorem assocLookup_cons {α : Type} (p : String × α) (rest : List (String × α))
    (k : String) :
    assocLookup (p :: rest) k = if p.1 = k then some p.2 else assocLookup rest k := rfl

theorem assocLookup_append {α : Type} (l1 l2 : List (String × α)) (k : String) :
    assocLookup (l1 ++ l2) k =
      match assocLookup l1 k with
      | some v => some v
      | none => assocLookup l2 k := by
  induction l1 with
  | nil => rfl
  | cons p rest ih =>
      rw [List.cons_append, assocLookup_cons, assocLookup_cons]
      by_cases h : p.1 = k
      · rw [if_pos h, if_pos h]
      · rw [if_neg h, if_neg h, ih]

theorem not_mem_map_fst_of_lookup_none {α : Type} {l : List (String × α)}
    {k : String} (h : assocLookup l k = none) : k ∉ l.map Prod.fst := by
  induction l with
  | nil => simp
  | cons p rest ih =>
      rw [assocLookup_cons] at h
      by_cases hp : p.1 = k
      · rw [if_pos hp] at h
        exact Option.noConfusion h
      · rw [if_neg hp] at h
        simp only [List.map_cons, List.mem_cons, not_or]
        exact ⟨fun he => hp he.symm, ih h⟩

theorem assocLookup_eq_none_of_not_mem {α : Type} {l : List (String × α)}
    {k : String} (h : k ∉ l.map Prod.fst) : assocLookup l k = none := by
  induction l with
  | nil => rfl
  | cons p rest ih =>
      simp only [List.map_cons, List.mem_cons, not_or] at h
      have hp : ¬ p.1 = k := fun he => h.1 he.symm
      rw [assocLookup_cons, if_neg hp]
      exact ih h.2

theorem countMember_eq_zero_of_not_mem {idx : List (String × Int)}
    {m : String} (h : m ∉ idx.map Prod.fst) : countMember idx m = 0 := by
  induction idx with
  | nil => rfl
  | cons p rest ih =>
      simp only [List.map_cons, List.mem_cons, not_or] at h
      have hp : ¬ p.1 = m := fun he => h.1 he.symm
      rw [countMember_cons, if_neg hp, ih h.2]

theorem countMember_eq_one_of_nodup {idx : List (String × Int)} {m : String}
    (hnd : uniqueMembers idx) (hm : m ∈ idx.map Prod.fst) :
    countMember idx m = 1 := by
  induction idx with
  | nil => simp at hm
  | cons p rest ih =>
      simp only [uniqueMembers, List.map_cons, List.nodup_cons] at hnd
      rcases hnd with ⟨hpn, hnd2⟩
      simp only [List.map_cons, List.mem_cons] at hm
      rw [countMember_cons]
      rcases hm with hm | hm
      · rw [if_pos hm.symm, countMember_eq_zero_of_not_mem (hm ▸ hpn)]
      · have hp : ¬ p.1 = m := fun he => hpn (he ▸ hm)
        rw [if_neg hp, ih hnd2 hm]

theorem countMember_append (l1 l2 : List (String × Int)) (m : String) :
    countMember (l1 ++ l2) m = countMember l1 m + countMember l2 m := by
  simp [countMember, List.filter_append]

theorem map_fst_update (idx : List (String × Int)) (m : String) (sc : Int) :
    (idx.map (fun p => if p.1 = m then (m, sc) else p)).map Prod.fst
      = idx.map Prod.fst := by
  induction idx with
  | nil => rfl
  | cons p rest ih =>
      simp only [List.map_cons, ih]
      by_cases h : p.1 = m
      · rw [if_pos h]
        simp [h]
      · rw [if_neg h]

theorem assocLookup_update_self {idx : List (String × Int)} {m : String}
    (sc : Int) {v : Int} (h : assocLookup idx m = some v) :
    assocLookup (idx.map (fun p => if p.1 = m then (m, sc) else p)) m
      = some sc := by
  induction idx with
  | nil => exact Option.noConfusion h
  | cons p rest ih =>
      rw [assocLookup_cons] at h
      rw [List.map_cons, assocLookup_cons]
      by_cases hp : p.1 = m
      · rw [if_pos hp]
        simp
      · rw [if_neg hp] at h ⊢
        rw [if_neg hp]
        exact ih h

theorem assocLookup_update_other {idx : List (String × Int)} {m k : String}
    (sc : Int) (hk : k ≠ m) :
    assocLookup (idx.map (fun p => if p.1 = m then (m, sc) else p)) k
      = assocLookup idx k := by
  induction idx with
  | nil => rfl
  | cons p rest ih =>
      rw [List.map_cons, assocLookup_cons, assocLookup_cons]
      by_cases hp : p.1 = m
      · rw [if_pos hp]
        have hm : ¬ (m, sc).1 = k := fun he => hk he.symm
        have hpk : ¬ p.1 = k := by
          rw [hp]
          exact fun he => hk he.symm
        rw [if_neg hm, if_neg hpk, ih]
      · rw [if_neg hp]
        by_cases h2 : p.1 = k
        · rw [if_pos h2, if_pos h2]
        · rw [if_neg h2, if_neg h2, ih]

theorem countMember_update_other (idx : List (String × Int)) (m k : String)
    (sc : Int) (hk : k ≠ m) :
    countMember (idx.map (fun p => if p.1 = m then (m, sc) else p)) k
      = countMember idx k := by
  induction idx with
  | nil => rfl
  | cons p rest ih =>
      rw [List.map_cons, countMember_cons, countMember_cons, ih]
      by_cases hp : p.1 = m
      · rw [if_pos hp]
        have hm : ¬ (m, sc).1 = k := fun he => hk he.symm
        have hpk : ¬ p.1 = k := fun he => hk ((hp ▸ he : m = k).symm ▸ rfl)
        rw [if_neg hm, if_neg hpk]
      · rw [if_neg hp]

theorem zadd_lookup_self (idx : List (String × Int)) (m : String) (sc : Int) :
    assocLookup (zadd idx m sc).1 m = some sc := by
  unfold zadd
  cases h : assocLookup idx m with
  | none =>
      rw [assocLookup_append, h]
      simp [assocLookup]
  | some v => exact assocLookup_update_self sc h

theorem zadd_count_self {idx : List (String × Int)} (m : String) (sc : Int)
    (hnd : uniqueMembers idx) : countMember (zadd idx m sc).1 m = 1 := by
  unfold zadd
  cases h : assocLookup idx m with
  | none =>
      rw [countMember_append,
        countMember_eq_zero_of_not_mem (not_mem_map_fst_of_lookup_none h),
        countMember_cons]
      simp [countMember]
  | some v =>
      have hm : m ∈ idx.map Prod.fst := by
        by_contra hc
        rw [assocLookup_eq_none_of_not_mem hc] at h
        exact Option.noConfusion h
      have hnd2 :
          uniqueMembers (idx.map (fun p => if p.1 = m then (m, sc) else p)) := by
        unfold uniqueMembers
        rw [map_fst_update]
        exact hnd
      refine countMember_eq_one_of_nodup hnd2 ?_
      rw [map_fst_update]
      exact hm

theorem zadd_unique {idx : List (String × Int)} (m : String) (sc : Int)
    (hnd : uniqueMembers idx) : uniqueMembers (zadd idx m sc).1 := by
  unfold zadd
  cases h : assocLookup idx m with
  | none =>
      unfold uniqueMembers
      rw [List.map_append, List.nodup_append]
      refine ⟨hnd, List.nodup_singleton m, ?_⟩
      intro a ha hb
      simp only [List.map_cons, List.map_nil, List.mem_singleton] at hb
      exact not_mem_map_fst_of_lookup_none h (hb ▸ ha)
  | some v =>
      unfold uniqueMembers
      rw [map_fst_update]
      exact hnd

theorem zadd_lookup_other {idx : List (String × Int)} {m k : String}
    (sc : Int) (hk : k ≠ m) :
    assocLookup (zadd idx m sc).1 k = assocLookup idx k := by
  unfold zadd
  cases h : assocLookup idx m with
  | none =>
      rw [assocLookup_append]
      cases h2 : assocLookup idx k with
      | none =>
          have hm : ¬ m = k := fun he => hk he.symm
          simp [assocLookup, hm]
      | some w => rfl
  | some v => exact assocLookup_update_other sc hk

theorem zadd_count_other {idx : List (String × Int)} {m k : String}
    (sc : Int) (hk : k ≠ m) :
    countMember (zadd idx m sc).1 k = countMember idx k := by
  unfold zadd
  cases h : assocLookup idx m with
  | none =>
      rw [countMember_append]
      have hm : ¬ m = k := fun he => hk he.symm
      rw [countMember_cons]
      simp [hm, countMember]
  | some v => exact countMember_update_other idx m k sc hk

theorem bulkSet_cons (r : RedisTKV) (s : TKVState) (rec : BulkSetRecord)
    (rest : List BulkSetRecord) :
    RedisTKV.BulkSet r s (rec :: rest)
      = RedisTKV.BulkSet r
          { primary := assocSet s.primary (r.namespacedKey rec.id) rec.data
            index := (zadd s.index (r.namespacedKey rec.id) rec.lastModified).1 }
          rest := rfl

theorem lastWriteTs_none_not_written (r : RedisTKV) :
    ∀ {records : List BulkSetRecord} {key : String},
    lastWriteTs r records key = none →
    ∀ rec ∈ records, r.namespacedKey rec.id ≠ key := by
  intro records
  induction records with
  | nil =>
      intro key _ rec hrec
      simp at hrec
  | cons rec0 rest ih =>
      intro key h rec hrec
      unfold lastWriteTs at h
      cases hr : lastWriteTs r rest key with
      | some t =>
          rw [hr] at h
          exact Option.noConfusion h
      | none =>
          rw [hr] at h
          by_cases hc : r.namespacedKey rec0.id = key
          · rw [if_pos hc] at h
            exact Option.noConfusion h
          · rcases List.mem_cons.mp hrec with he | he
            · rw [he]
              exact hc
            · exact ih hr rec he

theorem bulkSet_unique (r : RedisTKV) :
    ∀ (records : List BulkSetRecord) (s : TKVState),
    uniqueMembers s.index → uniqueMembers (RedisTKV.BulkSet r s records).index := by
  intro records
  induction records with
  | nil => intro s h; exact h
  | cons rec rest ih =>
      intro s h
      rw [bulkSet_cons]
      exact ih _ (zadd_unique _ _ h)

theorem bulkSet_untouched (r : RedisTKV) :
    ∀ (records : List BulkSetRecord) (s : TKVState) (key : String),
    (∀ rec ∈ records, r.namespacedKey rec.id ≠ key) →
    assocLookup (RedisTKV.BulkSet r s records).index key = assocLookup s.index key
    ∧ countMember (RedisTKV.BulkSet r s records).index key = countMember s.index key := by
  intro records
  induction records with
  | nil => intro s key _; exact ⟨rfl, rfl⟩
  | cons rec rest ih =>
      intro s key h
      rw [bulkSet_cons]
      have h0 : r.namespacedKey rec.id ≠ key := h rec (List.mem_cons_self rec rest)
      have hk : key ≠ r.namespacedKey rec.id := fun he => h0 he.symm
      have hrest := ih
        { primary := assocSet s.primary (r.namespacedKey rec.id) rec.data
          index := (zadd s.index (r.namespacedKey rec.id) rec.lastModified).1 }
        key (fun rec2 hm => h rec2 (List.mem_cons_of_mem rec hm))
      refine ⟨hrest.1.trans ?_, hrest.2.trans ?_⟩
      · exact zadd_lookup_other _ hk
      · exact zadd_count_other _ hk

theorem bulkSet_lastWrite (r : RedisTKV) :
    ∀ (records : List BulkSetRecord) (s : TKVState) (key : String) (ts : Int),
    uniqueMembers s.index →
    lastWriteTs r records key = some ts →
    assocLookup (RedisTKV.BulkSet r s records).index key = some ts
    ∧ countMember (RedisTKV.BulkSet r s records).index key = 1 := by
  intro records
  induction records with
  | nil =>
      intro s key ts _ h
      exact Option.noConfusion h
  | cons rec rest ih =>
      intro s key ts hnd h
      rw [bulkSet_cons]
      cases hr : lastWriteTs r rest key with
      | some t =>
          have hts : ts = t := by
            unfold lastWriteTs at h
            rw [hr] at h
            exact (Option.some.inj h).symm
          rw [hts]
          exact ih _ key t (zadd_unique _ _ hnd) hr
      | none =>
          have h2 : r.namespacedKey rec.id = key ∧ ts = rec.lastModified := by
            unfold lastWriteTs at h
            rw [hr] at h
            by_cases hc : r.namespacedKey rec.id = key
            · rw [if_pos hc] at h
              exact ⟨hc, (Option.some.inj h).symm⟩
            · rw [if_neg hc] at h
              exact Option.noConfusion h
          obtain ⟨hkey, hts⟩ := h2
          have hnw := lastWriteTs_none_not_written r hr
          have hu := bulkSet_untouched r rest
            { primary := assocSet s.primary (r.namespacedKey rec.id) rec.data
              index := (zadd s.index (r.namespacedKey rec.id) rec.lastModified).1 }
            key hnw
          rw [hkey] at hu ⊢
          refine ⟨hu.1.trans ?_, hu.2.trans ?_⟩
          · rw [zadd_lookup_self, hts]
          · exact zadd_count_self _ _ hnd

/-- C1: the claim says a successful Delete removes both the primary
record and the Ordering Index entry for the composed key. Evaluated at a
concrete input (namespace ns, delimiter from DelimPipe, id segment a,
written at timestamp 1 and then deleted), the Delete model removes the
primary record but leaves the index entry for the composed key in place:
the ZREM of line 190 targets the raw id segments, not the composed key
that ZADD inserted, so the index keeps a dangling entry. -/
theorem delete_leaves_index_entry :
    assocLookup (RedisTKV.Delete ⟨"ns", DelimPipe⟩
      ((RedisTKV.Set ⟨"ns", DelimPipe⟩ ⟨[], []⟩ "v" 1 ["a"]).1) ["a"]).primary
        "ns|a" = none
    ∧ assocLookup (RedisTKV.Delete ⟨"ns", DelimPipe⟩
      ((RedisTKV.Set ⟨"ns", DelimPipe⟩ ⟨[], []⟩ "v" 1 ["a"]).1) ["a"]).index
        "ns|a" = some 1
    ∧ countMember (RedisTKV.Delete ⟨"ns", DelimPipe⟩
      ((RedisTKV.Set ⟨"ns", DelimPipe⟩ ⟨[], []⟩ "v" 1 ["a"]).1) ["a"]).index
        "ns|a" = 1 := by
  decide

/-- C2 counterexample: with one index entry of score 5, its key present
in the primary map, full range, offset 1 and count 10 the ZCOUNT total is
1 and the selection is empty, yet rangeScriptEval does not return the
pair of the true total and the empty list: it returns (0, []). -/
theorem rangeScript_empty_selection_cex :
    zcount [("k", 5)] Bound.negInf Bound.posInf ≠ 0
    ∧ zrangebyscore [("k", 5)] Bound.negInf Bound.posInf 1 10 = []
    ∧ rangeScriptEval [("k", 5)] [("k", "v")] Bound.negInf Bound.posInf 1 10
        ≠ (zcount [("k", 5)] Bound.negInf Bound.posInf, []) := by
  decide

/-- C2 amended: in the server-evaluated range procedure, when the count
of entries in the score range is nonzero but the selection after offset
and limit is empty, the procedure returns (0, []): the second
empty-selection branch of the script discards the true total. -/
theorem rangeScript_empty_selection (idx : List (String × Int))
    (prim : List (String × String)) (lo hi : Bound) (offset count : Int)
    (h1 : zcount idx lo hi ≠ 0)
    (h2 : zrangebyscore idx lo hi offset count = []) :
    rangeScriptEval idx prim lo hi offset count = (0, []) := by
  simp [rangeScriptEval, h1, h2]

/-- C2 witness: the amended statement applied at the concrete input of
one entry with score 5, offset 1, count 10. -/
theorem rangeScript_empty_selection_witness :
    rangeScriptEval [("k", 5)] [("k", "v")] Bound.negInf Bound.posInf 1 10
      = (0, []) :=
  rangeScript_empty_selection [("k", 5)] [("k", "v")] Bound.negInf Bound.posInf
    1 10 (by decide) (by decide)

/-- C3: on a well-formed index (pairwise distinct members), after Set the
composed key has exactly one index entry whose score is the write
timestamp and the index stays well formed; after BulkSet every key the
batch writes has exactly one index entry whose score is the timestamp of
the batch's last write of that key, so a prior entry is replaced, never
duplicated. -/
theorem write_index_upsert (r : RedisTKV) (s : TKVState)
    (hnd : uniqueMembers s.index) :
    (∀ (data : String) (ts : Int) (id : List String),
      countMember ((RedisTKV.Set r s data ts id).1).index (r.namespacedKey id) = 1
      ∧ assocLookup ((RedisTKV.Set r s data ts id).1).index (r.namespacedKey id)
          = some ts
      ∧ uniqueMembers ((RedisTKV.Set r s data ts id).1).index)
    ∧ (∀ (records : List BulkSetRecord) (key : String) (ts : Int),
      lastWriteTs r records key = some ts →
      countMember (RedisTKV.BulkSet r s records).index key = 1
      ∧ assocLookup (RedisTKV.BulkSet r s records).index key = some ts) := by
  constructor
  · intro data ts id
    exact ⟨zadd_count_self _ _ hnd, zadd_lookup_self _ _ _, zadd_unique _ _ hnd⟩
  · intro records key ts h
    have hb := bulkSet_lastWrite r records s key ts hnd h
    exact ⟨hb.2, hb.1⟩

/-- C3 witness: the theorem applied to the empty state, a single Set of
id segment a at timestamp 5, and a two-record batch writing the same key
at timestamps 1 then 2 (the surviving score is 2, the last write). -/
theorem write_index_upsert_witness :
    countMember ((RedisTKV.Set ⟨"ns", "|"⟩ ⟨[], []⟩ "v" 5 ["a"]).1).index
      (RedisTKV.namespacedKey ⟨"ns", "|"⟩ ["a"]) = 1
    ∧ assocLookup ((RedisTKV.Set ⟨"ns", "|"⟩ ⟨[], []⟩ "v" 5 ["a"]).1).index
      (RedisTKV.namespacedKey ⟨"ns", "|"⟩ ["a"]) = some 5
    ∧ countMember (RedisTKV.BulkSet ⟨"ns", "|"⟩ ⟨[], []⟩
        [⟨1, ["b"], "x"⟩, ⟨2, ["b"], "y"⟩]).index "ns|b" = 1
    ∧ assocLookup (RedisTKV.BulkSet ⟨"ns", "|"⟩ ⟨[], []⟩
        [⟨1, ["b"], "x"⟩, ⟨2, ["b"], "y"⟩]).index "ns|b" = some 2 := by
  have h := write_index_upsert ⟨"ns", "|"⟩ ⟨[], []⟩ (by exact List.Pairwise.nil)
  have h1 := h.1 "v" 5 ["a"]
  have h2 := h.2 [⟨1, ["b"], "x"⟩, ⟨2, ["b"], "y"⟩] "ns|b" 2 (by decide)
  exact ⟨h1.1, h1.2.1, h2.1, h2.2⟩

/-- C4: the claim says a nil MGET row (a member key missing in the
primary store) is tolerated and iterating the returned sequence is total.
Evaluated at a concrete state whose index holds a member absent from the
primary map, the iteration model of both fetch paths hits the
rawValue.(string) type assertion on the nil row and panics, so the
iteration is not total: the code contradicts the documented contract. -/
theorem fetch_iteration_panics_on_nil :
    (yieldValues (FetchPage ⟨[], [("ns|a", 1)]⟩ none none 0 10).1).2 = true
    ∧ (yieldValues (rangeScriptEval [("ns|a", 1)] [] (rangeMinOf none)
        (rangeMaxOf none) 0 10).2).2 = true := by
  decide

theorem zadd_snd_some {idx : List (String × Int)} {m : String} {v : Int}
    (sc : Int) (h : assocLookup idx m = some v) : (zadd idx m sc).2 = 0 := by
  unfold zadd
  rw [h]

theorem zadd_snd_none {idx : List (String × Int)} {m : String}
    (sc : Int) (h : assocLookup idx m = none) : (zadd idx m sc).2 = 1 := by
  unfold zadd
  rw [h]

theorem set_snd (r : RedisTKV) (s : TKVState) (data : String) (ts : Int)
    (id : List String) :
    (RedisTKV.Set r s data ts id).2
      = ((zadd s.index (r.namespacedKey id) ts).2 == 0) := rfl

/-- C5: the Bool returned by Set is exactly whether the composed key
already had an index entry, taken from the ZADD insert-or-update side
channel; in particular the first write of a key returns existed false and
a subsequent overwrite of the same key returns existed true. -/
theorem set_existed_from_index (r : RedisTKV) (s : TKVState) (data : String)
    (ts : Int) (id : List String) :
    ((RedisTKV.Set r s data ts id).2
      = (assocLookup s.index (r.namespacedKey id)).isSome)
    ∧ (assocLookup s.index (r.namespacedKey id) = none →
      (RedisTKV.Set r s data ts id).2 = false
      ∧ ∀ (d2 : String) (t2 : Int),
          (RedisTKV.Set r (RedisTKV.Set r s data ts id).1 d2 t2 id).2 = true) := by
  constructor
  · cases h : assocLookup s.index (r.namespacedKey id) with
    | none => rw [set_snd, zadd_snd_none ts h]; rfl
    | some v => rw [set_snd, zadd_snd_some ts h]; rfl
  · intro h
    constructor
    · rw [set_snd, zadd_snd_none ts h]; rfl
    · intro d2 t2
      have hl : assocLookup ((RedisTKV.Set r s data ts id).1).index
          (r.namespacedKey id) = some ts := zadd_lookup_self _ _ _
      rw [set_snd, zadd_snd_some t2 hl]
      rfl

/-- C5 witness: first write of id segment a on the empty state returns
existed false; the overwrite of the same id returns existed true. -/
theorem set_existed_from_index_witness :
    ((RedisTKV.Set ⟨"ns", "|"⟩ ⟨[], []⟩ "v" 1 ["a"]).2 = false)
    ∧ (RedisTKV.Set ⟨"ns", "|"⟩
        (RedisTKV.Set ⟨"ns", "|"⟩ ⟨[], []⟩ "v" 1 ["a"]).1 "w" 2 ["a"]).2 = true := by
  have h := (set_existed_from_index ⟨"ns", "|"⟩ ⟨[], []⟩ "v" 1 ["a"]).2 (by decide)
  exact ⟨h.1, h.2 "w" 2⟩

/-- C10: when the ZRANGEBYSCORE selection of FetchPage is empty, the
function returns the empty sequence together with the total of the
separate ZCOUNT step (which may be nonzero) and performs no MGET round
trip; at the same state the server-evaluated procedure of the consistent
path returns (0, []) instead of that total. -/
theorem fetchPage_empty_selection (s : TKVState) (fromT toT : Option Int)
    (offset limit : Int)
    (h : zrangebyscore s.index (rangeMinOf fromT) (rangeMaxOf toT) offset limit
      = []) :
    FetchPage s fromT toT offset limit
      = ([], zcount s.index (rangeMinOf fromT) (rangeMaxOf toT), false)
    ∧ rangeScriptEval s.index s.primary (rangeMinOf fromT) (rangeMaxOf toT)
        offset limit = (0, []) := by
  constructor
  · simp [FetchPage, h]
  · by_cases h0 : zcount s.index (rangeMinOf fromT) (rangeMaxOf toT) = 0
    · simp [rangeScriptEval, h0]
    · simp [rangeScriptEval, h0, h]

/-- C10 witness: one record in store, offset 1: FetchPage reports the
nonzero total 1 with no values and no MGET, while the consistent-path
procedure reports (0, []) on the same state. -/
theorem fetchPage_empty_selection_witness :
    FetchPage ⟨[("ns|a", "v")], [("ns|a", 5)]⟩ none none 1 10 = ([], 1, false)
    ∧ rangeScriptEval [("ns|a", 5)] [("ns|a", "v")] (rangeMinOf none)
        (rangeMaxOf none) 1 10 = (0, []) := by
  have h := fetchPage_empty_selection ⟨[("ns|a", "v")], [("ns|a", 5)]⟩
    none none 1 10 (by decide)
  exact ⟨h.1.trans (by decide), h.2⟩

theorem drainPage_none (it : List String) :
    (drainPage it none).2.1 = none ∧ (drainPage it none).2.2 = false
    ∧ (drainPage it none).1 = it := by
  induction it with
  | nil => exact ⟨rfl, rfl, rfl⟩
  | cons x xs ih =>
      refine ⟨?_, ?_, ?_⟩
      · show (drainPage xs none).2.1 = none
        exact ih.1
      · show (drainPage xs none).2.2 = false
        exact ih.2.1
      · show x :: (drainPage xs none).1 = x :: xs
        rw [ih.2.2]

theorem paginateLoop_succ (pageFn : PageFn) (limit : Int) (fuel : Nat)
    (it : List String) (offset total : Int) (budget : Option Nat) :
    paginateLoop pageFn limit (fuel + 1) it offset total budget =
      if (drainPage it budget).2.2 then
        some ((drainPage it budget).1.map PElem.item, 0)
      else if total ≤ offset + limit then
        some ((drainPage it budget).1.map PElem.item, 0)
      else
        match pageFn (offset + limit) limit with
        | .error e =>
            some ((drainPage it budget).1.map PElem.item
              ++ [PElem.fail ("fetching next page failed: " ++ e)], 1)
        | .ok (it2, total2) =>
            match paginateLoop pageFn limit fuel it2 (offset + limit) total2
                (drainPage it budget).2.1 with
            | none => none
            | some pr =>
                some ((drainPage it budget).1.map PElem.item ++ pr.1, pr.2 + 1) := rfl

theorem paginateLoop_succ_stop {pageFn : PageFn} {limit : Int} {fuel : Nat}
    {it : List String} {offset total : Int} {budget : Option Nat}
    (hs : (drainPage it budget).2.2 = true) :
    paginateLoop pageFn limit (fuel + 1) it offset total budget
      = some ((drainPage it budget).1.map PElem.item, 0) := by
  rw [paginateLoop_succ, if_pos hs]

theorem paginateLoop_succ_done {pageFn : PageFn} {limit : Int} {fuel : Nat}
    {it : List String} {offset total : Int} {budget : Option Nat}
    (hns : (drainPage it budget).2.2 = false)
    (hstop : total ≤ offset + limit) :
    paginateLoop pageFn limit (fuel + 1) it offset total budget
      = some ((drainPage it budget).1.map PElem.item, 0) := by
  rw [paginateLoop_succ, if_neg (by simp [hns]), if_pos hstop]

theorem paginateLoop_succ_fetch_err {pageFn : PageFn} {limit : Int}
    {fuel : Nat} {it : List String} {offset total : Int} {budget : Option Nat}
    (hns : (drainPage it budget).2.2 = false)
    (hlt : offset + limit < total) {e : String}
    (hpf : pageFn (offset + limit) limit = .error e) :
    paginateLoop pageFn limit (fuel + 1) it offset total budget
      = some ((drainPage it budget).1.map PElem.item
          ++ [PElem.fail ("fetching next page failed: " ++ e)], 1) := by
  rw [paginateLoop_succ, if_neg (by simp [hns]), if_neg (by omega), hpf]

theorem paginateLoop_succ_fetch {pageFn : PageFn} {limit : Int} {fuel : Nat}
    {it : List String} {offset total : Int} {budget : Option Nat}
    (hns : (drainPage it budget).2.2 = false)
    (hlt : offset + limit < total) {it2 : List String} {total2 : Int}
    (hpf : pageFn (offset + limit) limit = .ok (it2, total2)) :
    paginateLoop pageFn limit (fuel + 1) it offset total budget
      = match paginateLoop pageFn limit fuel it2 (offset + limit) total2
            (drainPage it budget).2.1 with
        | none => none
        | some pr =>
            some ((drainPage it budget).1.map PElem.item ++ pr.1, pr.2 + 1) := by
  rw [paginateLoop_succ, if_neg (by simp [hns]), if_neg (by omega), hpf]

theorem Paginate_err {pageFn : PageFn} {offset limit : Int}
    {budget : Option Nat} {fuel : Nat} {e : String}
    (hpf : pageFn offset limit = .error e) :
    Paginate pageFn offset limit budget fuel
      = .error ("fetching first page failed: " ++ e) := by
  unfold Paginate
  rw [hpf]

theorem Paginate_small {pageFn : PageFn} {offset limit : Int}
    {it : List String} {total : Int} {budget : Option Nat} {fuel : Nat}
    (hpf : pageFn offset limit = .ok (it, total)) (hle : total ≤ limit) :
    Paginate pageFn offset limit budget fuel
      = .ok (some ((drainPage it budget).1.map PElem.item, 1)) := by
  unfold Paginate
  rw [hpf]
  exact if_pos hle

theorem Paginate_loop {pageFn : PageFn} {offset limit : Int}
    {it : List String} {total : Int} {budget : Option Nat} {fuel : Nat}
    (hpf : pageFn offset limit = .ok (it, total)) (hgt : ¬ total ≤ limit) :
    Paginate pageFn offset limit budget fuel
      = match paginateLoop pageFn limit fuel it offset total budget with
        | none => .ok none
        | some pr => .ok (some (pr.1, pr.2 + 1)) := by
  unfold Paginate
  rw [hpf]
  exact if_neg hgt

theorem paginateLoop_shape : ∀ (fuel : Nat) (pageFn : PageFn) (limit : Int)
    (it : List String) (offset total : Int) (budget : Option Nat)
    (elems : List PElem) (c : Nat),
    paginateLoop pageFn limit fuel it offset total budget = some (elems, c) →
    ∃ (items : List String) (tail : List PElem),
      elems = items.map PElem.item ++ tail
      ∧ (tail = []
        ∨ ∃ e2, tail = [PElem.fail ("fetching next page failed: " ++ e2)]) := by
  intro fuel
  induction fuel with
  | zero =>
      intro pageFn limit it offset total budget elems c h
      exact Option.noConfusion h
  | succ fuel ih =>
      intro pageFn limit it offset total budget elems c h
      cases hs : (drainPage it budget).2.2 with
      | true =>
          rw [paginateLoop_succ_stop hs] at h
          have h2 := Option.some.inj h
          have h3 : (drainPage it budget).1.map PElem.item = elems :=
            congrArg Prod.fst h2
          exact ⟨(drainPage it budget).1, [], by rw [← h3, List.append_nil],
            Or.inl rfl⟩
      | false =>
          by_cases hstop : total ≤ offset + limit
          · rw [paginateLoop_succ_done hs hstop] at h
            have h2 := Option.some.inj h
            have h3 : (drainPage it budget).1.map PElem.item = elems :=
              congrArg Prod.fst h2
            exact ⟨(drainPage it budget).1, [], by rw [← h3, List.append_nil],
              Or.inl rfl⟩
          · have hlt : offset + limit < total := not_le.mp hstop
            cases hpf : pageFn (offset + limit) limit with
            | error e =>
                rw [paginateLoop_succ_fetch_err hs hlt hpf] at h
                have h2 := Option.some.inj h
                have h3 : (drainPage it budget).1.map PElem.item
                    ++ [PElem.fail ("fetching next page failed: " ++ e)]
                    = elems := congrArg Prod.fst h2
                exact ⟨(drainPage it budget).1,
                  [PElem.fail ("fetching next page failed: " ++ e)],
                  h3.symm, Or.inr ⟨e, rfl⟩⟩
            | ok p =>
                obtain ⟨it2, total2⟩ := p
                rw [paginateLoop_succ_fetch hs hlt hpf] at h
                cases hloop : paginateLoop pageFn limit fuel it2 (offset + limit)
                    total2 (drainPage it budget).2.1 with
                | none =>
                    rw [hloop] at h
                    exact Option.noConfusion h
                | some pr =>
                    rw [hloop] at h
                    have h2 := Option.some.inj h
                    have h3 : (drainPage it budget).1.map PElem.item ++ pr.1
                        = elems := congrArg Prod.fst h2
                    obtain ⟨items, tail, hsh, htail⟩ := ih pageFn limit it2
                      (offset + limit) total2 (drainPage it budget).2.1 pr.1 pr.2
                      (by rw [hloop])
                    refine ⟨(drainPage it budget).1 ++ items, tail, ?_, htail⟩
                    rw [← h3, hsh, List.map_append, List.append_assoc]

theorem paginateLoop_zero_limit (pageFn : PageFn) (f : Int → Int → List String)
    (total : Int) (hpf : ∀ o l, pageFn o l = .ok (f o l, total))
    (offset : Int) (hlt : offset < total) :
    ∀ (fuel : Nat) (it : List String),
    paginateLoop pageFn 0 fuel it offset total none = none := by
  intro fuel
  induction fuel with
  | zero => intro it; rfl
  | succ fuel ih =>
      intro it
      have hd := drainPage_none it
      have hlt2 : offset + 0 < total := by omega
      rw [paginateLoop_succ_fetch hd.2.1 hlt2 (hpf (offset + 0) 0), hd.1]
      have : offset + 0 = offset := by omega
      rw [this, ih (f offset 0)]

theorem paginateLoop_bound (pageFn : PageFn) (f : Int → Int → List String)
    (total : Int) (hpf : ∀ o l, pageFn o l = .ok (f o l, total))
    (limit : Int) (hl : 1 ≤ limit) :
    ∀ (fuel : Nat) (offset : Int) (it : List String),
    (total - offset - limit).toNat ≤ fuel * limit.toNat →
    ∃ elems c, paginateLoop pageFn limit (fuel + 1) it offset total none
      = some (elems, c)
      ∧ (c = 0 ∨ c * limit.toNat < (total - offset).toNat) := by
  intro fuel
  induction fuel with
  | zero =>
      intro offset it hle
      have hstop : total ≤ offset + limit := by omega
      have hd := drainPage_none it
      rw [paginateLoop_succ_done hd.2.1 hstop]
      exact ⟨_, 0, rfl, Or.inl rfl⟩
  | succ fuel ih =>
      intro offset it hle
      have hd := drainPage_none it
      by_cases hstop : total ≤ offset + limit
      · rw [paginateLoop_succ_done hd.2.1 hstop]
        exact ⟨_, 0, rfl, Or.inl rfl⟩
      · have hlt : offset + limit < total := not_le.mp hstop
        have hle2 : (total - (offset + limit) - limit).toNat
            ≤ fuel * limit.toNat := by
          have hk : (fuel + 1) * limit.toNat = fuel * limit.toNat + limit.toNat :=
            Nat.succ_mul _ _
          omega
        obtain ⟨elems, c, heq, hbound⟩ := ih (offset + limit) (f (offset + limit) limit) hle2
        rw [paginateLoop_succ_fetch hd.2.1 hlt (hpf (offset + limit) limit), hd.1,
          heq]
        refine ⟨_, c + 1, rfl, Or.inr ?_⟩
        rcases hbound with hc0 | hlt2
        · subst hc0
          omega
        · have hk2 : (c + 1) * limit.toNat = c * limit.toNat + limit.toNat :=
            Nat.succ_mul _ _
          omega

/-- C6: when the first page's reported total is at most the limit,
Paginate returns that single page's sequence unchanged after exactly one
page-fetch call; and over the deterministic six-item source with page
size two, the composite sequence yields all six items in order across
exactly three page-fetch calls. -/
theorem paginate_single_page_and_six_items :
    (∀ (pageFn : PageFn) (offset limit : Int) (it : List String) (total : Int)
        (budget : Option Nat) (fuel : Nat),
      pageFn offset limit = Except.ok (it, total) → total ≤ limit →
      Paginate pageFn offset limit budget fuel
        = .ok (some ((drainPage it budget).1.map PElem.item, 1)))
    ∧ Paginate (mockPageFn ["i1", "i2", "i3", "i4", "i5", "i6"]) 0 2 none 10
        = .ok (some ([PElem.item "i1", PElem.item "i2", PElem.item "i3",
            PElem.item "i4", PElem.item "i5", PElem.item "i6"], 3)) := by
  constructor
  · intro pageFn offset limit it total budget fuel hpf hle
    exact Paginate_small hpf hle
  · rfl

/-- C6 witness: the single-page short circuit applied to the six-item
mock source with page size six: one call, all items unchanged. -/
theorem paginate_single_page_and_six_items_witness :
    Paginate (mockPageFn ["i1", "i2", "i3", "i4", "i5", "i6"]) 0 6 none 10
      = .ok (some ([PElem.item "i1", PElem.item "i2", PElem.item "i3",
          PElem.item "i4", PElem.item "i5", PElem.item "i6"], 1)) := by
  have h := paginate_single_page_and_six_items.1
    (mockPageFn ["i1", "i2", "i3", "i4", "i5", "i6"]) 0 6
    (mockPageItems ["i1", "i2", "i3", "i4", "i5", "i6"] 0 6) 6 none 10 rfl
    (by decide)
  exact h.trans rfl

/-- C7: a failure of the very first page-fetch call makes Paginate return
the wrapped error immediately (no sequence); any successful composite
sequence consists of items followed by at most one trailing error
element; and when a later page-fetch call fails, the loop yields the
already drained items, then exactly one error element, and terminates
with no further calls. -/
theorem paginate_error_handling :
    (∀ (pageFn : PageFn) (offset limit : Int) (budget : Option Nat)
        (fuel : Nat) (e : String),
      pageFn offset limit = .error e →
      Paginate pageFn offset limit budget fuel
        = .error ("fetching first page failed: " ++ e))
    ∧ (∀ (pageFn : PageFn) (offset limit : Int) (budget : Option Nat)
        (fuel : Nat) (elems : List PElem) (c : Nat),
      Paginate pageFn offset limit budget fuel = .ok (some (elems, c)) →
      ∃ (items : List String) (tail : List PElem),
        elems = items.map PElem.item ++ tail
        ∧ (tail = []
          ∨ ∃ e2, tail = [PElem.fail ("fetching next page failed: " ++ e2)]))
    ∧ (∀ (pageFn : PageFn) (limit : Int) (fuel : Nat) (it : List String)
        (offset total : Int) (budget : Option Nat) (e : String),
      (drainPage it budget).2.2 = false →
      offset + limit < total →
      pageFn (offset + limit) limit = .error e →
      paginateLoop pageFn limit (fuel + 1) it offset total budget
        = some ((drainPage it budget).1.map PElem.item
            ++ [PElem.fail ("fetching next page failed: " ++ e)], 1)) := by
  refine ⟨?_, ?_, ?_⟩
  · intro pageFn offset limit budget fuel e hpf
    exact Paginate_err hpf
  · intro pageFn offset limit budget fuel elems c h
    cases hpf : pageFn offset limit with
    | error e =>
        rw [Paginate_err hpf] at h
        exact Except.noConfusion h
    | ok p =>
        obtain ⟨it, total⟩ := p
        by_cases hle : total ≤ limit
        · rw [Paginate_small hpf hle] at h
          have h2 := Option.some.inj (Except.ok.inj h)
          have h3 : (drainPage it budget).1.map PElem.item = elems :=
            congrArg Prod.fst h2
          exact ⟨(drainPage it budget).1, [], by rw [← h3, List.append_nil],
            Or.inl rfl⟩
        · rw [Paginate_loop hpf hle] at h
          cases hloop : paginateLoop pageFn limit fuel it offset total budget with
          | none =>
              rw [hloop] at h
              exact Option.noConfusion (Except.ok.inj h)
          | some pr =>
              rw [hloop] at h
              have h2 := Option.some.inj (Except.ok.inj h)
              have h3 : pr.1 = elems := congrArg Prod.fst h2
              obtain ⟨items, tail, hsh, htail⟩ := paginateLoop_shape fuel pageFn
                limit it offset total budget pr.1 pr.2 (by rw [hloop])
              exact ⟨items, tail, by rw [← h3, hsh], htail⟩
  · intro pageFn limit fuel it offset total budget e hns hlt hpf
    exact paginateLoop_succ_fetch_err hns hlt hpf

/-- C7 witness: a page function failing on its first call makes Paginate
return the wrapped first-page error. -/
theorem paginate_error_handling_witness :
    Paginate (fun _ _ => Except.error "mock error") 0 2 none 10
      = .error ("fetching first page failed: " ++ "mock error") :=
  paginate_error_handling.1 (fun _ _ => Except.error "mock error") 0 2 none 10
    "mock error" rfl

/-- C8: when the consumer stops pulling while draining the current page,
the composite loop returns immediately with zero further page-fetch
calls; concretely, consuming only three items of the six-item two-per-page
source performs two page-fetch calls in total rather than three. -/
theorem paginate_early_exit_stops_fetching :
    (∀ (pageFn : PageFn) (limit : Int) (fuel : Nat) (it : List String)
        (offset total : Int) (budget : Option Nat),
      (drainPage it budget).2.2 = true →
      paginateLoop pageFn limit (fuel + 1) it offset total budget
        = some ((drainPage it budget).1.map PElem.item, 0))
    ∧ Paginate (mockPageFn ["i1", "i2", "i3", "i4", "i5", "i6"]) 0 2 (some 3) 10
        = .ok (some ([PElem.item "i1", PElem.item "i2", PElem.item "i3"], 2)) := by
  constructor
  · intro pageFn limit fuel it offset total budget hs
    exact paginateLoop_succ_stop hs
  · rfl

/-- C8 witness: a consumer budget of one stops inside the first drained
page and the loop performs zero page-fetch calls, even though the page
function would fail and the reported total would demand more pages. -/
theorem paginate_early_exit_stops_fetching_witness :
    (drainPage ["a", "b"] (some 1)).2.2 = true
    ∧ paginateLoop (fun _ _ => Except.error "boom") 5 1 ["a", "b"] 0 100 (some 1)
        = some ([PElem.item "a"], 0) := by
  have h := paginate_early_exit_stops_fetching.1 (fun _ _ => Except.error "boom")
    5 0 ["a", "b"] 0 100 (some 1) (by decide)
  exact ⟨by decide, h.trans (by decide)⟩

/-- C9: for a page function that always succeeds with a fixed reported
total and a limit of at least one, Paginate terminates (with fuel at
least the gap it has to cover) and the composite sequence performs at
most ceiling((total - offset) / limit) page-fetch calls beyond the
initial one; and the bound on the limit is necessary: with limit zero the
offset never advances, and for every amount of fuel the loop fails to
terminate. -/
theorem paginate_call_bound_and_zero_limit :
    ∀ (pageFn : PageFn) (f : Int → Int → List String) (total : Int),
    (∀ o l, pageFn o l = Except.ok (f o l, total)) →
    (∀ (offset limit : Int) (fuel : Nat), 1 ≤ limit →
      (total - offset - limit).toNat ≤ fuel * limit.toNat →
      ∃ elems c, Paginate pageFn offset limit none (fuel + 1)
        = .ok (some (elems, c + 1))
        ∧ c ≤ ((total - offset).toNat + limit.toNat - 1) / limit.toNat)
    ∧ (∀ (offset : Int) (fuel : Nat), 0 < total → offset < total →
      Paginate pageFn offset 0 none fuel = .ok none) := by
  intro pageFn f total hpf
  constructor
  · intro offset limit fuel hl hfuel
    by_cases hle : total ≤ limit
    · refine ⟨(drainPage (f offset limit) none).1.map PElem.item, 0, ?_, ?_⟩
      · rw [Paginate_small (hpf offset limit) hle]
      · exact Nat.zero_le _
    · obtain ⟨elems, c, heq, hbound⟩ := paginateLoop_bound pageFn f total hpf
        limit hl fuel offset (f offset limit) hfuel
      refine ⟨elems, c, ?_, ?_⟩
      · rw [Paginate_loop (hpf offset limit) hle, heq]
      · have hlpos : 0 < limit.toNat := by omega
        rcases hbound with hc0 | hlt
        · exact hc0 ▸ Nat.zero_le _
        · have h1 : c ≤ ((total - offset).toNat - 1) / limit.toNat :=
            (Nat.le_div_iff_mul_le hlpos).mpr (by omega)
          exact le_trans h1 (Nat.div_le_div_right (by omega))
  · intro offset fuel h0 hlt
    have hgt : ¬ total ≤ (0 : Int) := by omega
    rw [Paginate_loop (hpf offset 0) hgt,
      paginateLoop_zero_limit pageFn f total hpf offset hlt fuel (f offset 0)]

/-- C9 witness: the six-item mock source with page size two and exactly
enough fuel: Paginate terminates with a call count within the ceiling
bound, and with limit zero the run exhausts any fuel. -/
theorem paginate_call_bound_and_zero_limit_witness :
    (∃ elems c, Paginate (mockPageFn ["i1", "i2", "i3", "i4", "i5", "i6"])
      0 2 none 3 = .ok (some (elems, c + 1)) ∧ c ≤ 3)
    ∧ Paginate (mockPageFn ["i1", "i2", "i3", "i4", "i5", "i6"]) 0 0 none 7
        = .ok none := by
  have h := paginate_call_bound_and_zero_limit
    (mockPageFn ["i1", "i2", "i3", "i4", "i5", "i6"])
    (mockPageItems ["i1", "i2", "i3", "i4", "i5", "i6"]) 6 (fun _ _ => rfl)
  constructor
  · obtain ⟨elems, c, he, hb⟩ := h.1 0 2 2 (by decide) (by decide)
    exact ⟨elems, c, he, le_trans hb (by decide)⟩
  · exact h.2 0 7 (by decide) (by decide)
